import Mathlib

/-!
Verification of the reactive-stream core specified by this repository's
documentation. The repository is a tutorial corpus: the engine itself
(Observable, Subject variants, operators, virtual-time marble testing) is
supplied by an external library, so the engine's behaviour is modelled here
from the specification text, while the marble scenarios, subjects scripts and
composition helpers under `src/examples` and `src/docs` are embedded from
their source.
-/

namespace Rx

/-- Modelled from the spec: the three observer channels (value, error,
completion) of a reactive event, §3 Observer. The engine is not in the
repository's source. -/
inductive MEvent (α : Type) where
  | next : α → MEvent α
  | error : MEvent α
  | complete : MEvent α
deriving DecidableEq, Repr

/-- Modelled from the spec: an event stamped with the virtual frame at which
the virtual-time scheduler delivers it, §4.5. -/
structure TimedEvent (α : Type) where
  frame : Nat
  ev : MEvent α
deriving DecidableEq, Repr

/-- Is the event a value (non-terminal) event? -/
def notTerminal : MEvent α → Bool
  | MEvent.next _ => true
  | MEvent.error => false
  | MEvent.complete => false

/-- Shift every event of a sequence forward by `t0` frames (subscription at
virtual frame `t0`). -/
def shiftEvents (t0 : Nat) (evs : List (TimedEvent α)) : List (TimedEvent α) :=
  evs.map (fun e => ⟨t0 + e.frame, e.ev⟩)

/-- Modelled from the spec: the marble-string grammar of §4.5 — `-` is 10
frames of silence, a value character is a value frame (each character advances
the clock by one 10-frame slot), `|` completion, `#` error, `(...)` groups
events at the frame of the opening parenthesis, `^`/`!` are subscription
markers not counted as time. `t` is the clock, `g` the frame of an open
group. The marble harness is not in the repository's source. -/
def parseAux (vals : Char → α) : Nat → Option Nat → List Char → List (TimedEvent α)
  | _, _, [] => []
  | t, g, c :: rest =>
    let here : Nat := match g with | some gf => gf | none => t
    if c = '-' then parseAux vals (t + 10) g rest
    else if c = '(' then parseAux vals (t + 10) (some t) rest
    else if c = ')' then parseAux vals (t + 10) none rest
    else if c = '|' then ⟨here, MEvent.complete⟩ :: parseAux vals (t + 10) g rest
    else if c = '#' then ⟨here, MEvent.error⟩ :: parseAux vals (t + 10) g rest
    else if c = '^' then parseAux vals t g rest
    else if c = '!' then parseAux vals t g rest
    else ⟨here, MEvent.next (vals c)⟩ :: parseAux vals (t + 10) g rest

/-- Modelled from the spec: parse a marble string into the `(frame, event)`
sequence a cold Observable built from it reproduces, frame 0 at subscription
(§4.5 `cold`). -/
def parseMarbles (s : List Char) (vals : Char → α) : List (TimedEvent α) :=
  parseAux vals 0 none s

/-- Modelled from the spec: the `map(f)` operator — applies `f` to every
value event and passes terminal events through unchanged (§4.2). The
operator itself is not in the repository's source. -/
def mapEv (f : α → β) : MEvent α → MEvent β
  | MEvent.next v => MEvent.next (f v)
  | MEvent.error => MEvent.error
  | MEvent.complete => MEvent.complete

/-- Modelled from the spec: `map(f)` on a whole timed event sequence. -/
def mapSem (f : α → β) (evs : List (TimedEvent α)) : List (TimedEvent β) :=
  evs.map (fun e => ⟨e.frame, mapEv f e.ev⟩)

/-- Modelled from the spec: `pipe(...)` composes operators left to right
(§4.2). -/
def pipeL (ops : List (σ → σ)) (x : σ) : σ :=
  ops.foldl (fun acc op => op acc) x

/-- Modelled from the spec: `of(v)` emits `v` and completes synchronously at
the subscription frame. -/
def ofSem (v : α) : List (TimedEvent α) :=
  [⟨0, MEvent.next v⟩, ⟨0, MEvent.complete⟩]

/-- Modelled from the spec: `catchError(handler)` — values and completion
pass through; on error the failed source is dropped and the handler
Observable's events are spliced in at the error's frame (§4.2). Here the
handler ignores the error value, as in the repository's snippets. -/
def catchErrorSem (handler : List (TimedEvent α)) : List (TimedEvent α) → List (TimedEvent α)
  | [] => []
  | ⟨t, MEvent.next v⟩ :: rest => ⟨t, MEvent.next v⟩ :: catchErrorSem handler rest
  | ⟨t, MEvent.complete⟩ :: _ => [⟨t, MEvent.complete⟩]
  | ⟨t, MEvent.error⟩ :: _ => shiftEvents t handler

/-- The source marble of `testErrorHandling` in
`src/examples/16-memory-management.ts` and of the error-scenario snippet in
`src/docs/17-testing-rxjs.md`. -/
def c7srcMarble : List Char := "a-b-#".toList

/-- The expectation marble of the catchError scenario (`'y'` standing for the
handler's replacement value, as in §8 of the spec). -/
def c7expMarble : List Char := "a-b-(y|)".toList

/-- Modelled from the spec: `debounceTime(d)` processing loop (§4.2). State
`pending` is the scheduled emission `(dueFrame, value)`, if any. A pending
timer that is due strictly before the event being processed fires first (at
equal frames the source's own action, scheduled earlier, runs first under the
FIFO tie-break of §4.4, cancelling the timer); each value cancels the pending
timer and schedules its own at `frame + d`; completion flushes any pending
value immediately; error drops it. The operator is not in the repository's
source. -/
def debounceAux (d : Nat) (pending : Option (Nat × α)) :
    List (TimedEvent α) → List (TimedEvent α)
  | [] =>
    match pending with
    | none => []
    | some (due, v) => [⟨due, MEvent.next v⟩]
  | ⟨t, e⟩ :: rest =>
    let fired : List (TimedEvent α) :=
      match pending with
      | some (due, v) => if due < t then [⟨due, MEvent.next v⟩] else []
      | none => []
    let kept : Option (Nat × α) :=
      match pending with
      | some (due, v) => if due < t then none else some (due, v)
      | none => none
    fired ++
      match e with
      | MEvent.next v => debounceAux d (some (t + d, v)) rest
      | MEvent.complete =>
        match kept with
        | some (_, v) => [⟨t, MEvent.next v⟩, ⟨t, MEvent.complete⟩]
        | none => [⟨t, MEvent.complete⟩]
      | MEvent.error => [⟨t, MEvent.error⟩]

/-- Modelled from the spec: `debounceTime(d)` on a timed event sequence. -/
def debounceTimeSem (d : Nat) (src : List (TimedEvent α)) : List (TimedEvent α) :=
  debounceAux d none src

/-- The events of a cold source before its first terminal event. -/
def preTerminal (src : List (TimedEvent α)) : List (TimedEvent α) :=
  src.takeWhile (fun e => notTerminal e.ev)

/-- The first terminal event of a cold source, if any. -/
def firstTerminal (src : List (TimedEvent α)) : Option (TimedEvent α) :=
  (src.dropWhile (fun e => notTerminal e.ev)).head?

/-- Modelled from the spec: `retry(n)` (§4.2) — on error, resubscribe to the
cold source (which replays the same relative sequence, shifted to the frame of
the failure) up to `n` more times; after the last allowed failure propagate
the error. Returns the number of subscriptions made together with the output
event sequence, for a subscription at frame `t0`. The operator is not in the
repository's source. -/
def retryRun (src : List (TimedEvent α)) : Nat → Nat → Nat × List (TimedEvent α)
  | 0, t0 =>
    match firstTerminal src with
    | some ⟨te, e⟩ => (1, shiftEvents t0 (preTerminal src) ++ [⟨t0 + te, e⟩])
    | none => (1, shiftEvents t0 src)
  | Nat.succ k, t0 =>
    match firstTerminal src with
    | some ⟨te, MEvent.error⟩ =>
      let r := retryRun src k (t0 + te)
      (r.1 + 1, shiftEvents t0 (preTerminal src) ++ r.2)
    | some ⟨te, e⟩ => (1, shiftEvents t0 (preTerminal src) ++ [⟨t0 + te, e⟩])
    | none => (1, shiftEvents t0 src)

/-- Modelled from the spec: `retry(n)` applied at subscription frame 0;
first component is the total number of subscriptions to the source. -/
def retrySem (n : Nat) (src : List (TimedEvent α)) : Nat × List (TimedEvent α) :=
  retryRun src n 0

/-- Process the events an inner Observable delivers while it stays the
current one: value events pass through; an error is terminal (second
component true); a completion only marks the inner as finished, at the frame
reported in the third component. -/
def procInner : List (TimedEvent β) → List (TimedEvent β) × Bool × Option Nat
  | [] => ([], false, none)
  | ⟨t, MEvent.next v⟩ :: rest =>
    let r := procInner rest
    (⟨t, MEvent.next v⟩ :: r.1, r.2.1, r.2.2)
  | ⟨t, MEvent.error⟩ :: _ => ([⟨t, MEvent.error⟩], true, none)
  | ⟨t, MEvent.complete⟩ :: _ => ([], false, some t)

/-- Modelled from the spec: `switchMap` processing loop (§4.2). `inner` holds
the remaining (absolute-frame) events of the currently subscribed inner
Observable, if one is active. At each source event at frame `t`, the inner
events strictly before `t` are delivered first (at equal frames the source's
action, scheduled earlier, wins the FIFO tie-break of §4.4); a new source
value then unsubscribes the previous inner before subscribing to the
projection of the new value; the output completes only when the source has
completed and the current inner has completed. The operator is not in the
repository's source. -/
def smAux (proj : α → List (TimedEvent β)) :
    Option (List (TimedEvent β)) → List (TimedEvent α) → List (TimedEvent β)
  | inner, [] =>
    match inner with
    | none => []
    | some evs => (procInner evs).1
  | inner, ⟨t, e⟩ :: rest =>
    match inner with
    | none =>
      match e with
      | MEvent.next v => smAux proj (some (shiftEvents t (proj v))) rest
      | MEvent.complete => [⟨t, MEvent.complete⟩]
      | MEvent.error => [⟨t, MEvent.error⟩]
    | some evs =>
      let fired := evs.takeWhile (fun x => decide (x.frame < t))
      let rem := evs.dropWhile (fun x => decide (x.frame < t))
      let p := procInner fired
      if p.2.1 then p.1
      else
        p.1 ++
          match e with
          | MEvent.next v => smAux proj (some (shiftEvents t (proj v))) rest
          | MEvent.error => [⟨t, MEvent.error⟩]
          | MEvent.complete =>
            match p.2.2 with
            | some _ => [⟨t, MEvent.complete⟩]
            | none =>
              let q := procInner rem
              if q.2.1 then q.1
              else
                q.1 ++
                  match q.2.2 with
                  | some tc => [⟨tc, MEvent.complete⟩]
                  | none => []

/-- Modelled from the spec: `switchMap(proj)` on a timed event sequence,
starting with no active inner Observable. -/
def switchMapSem (proj : α → List (TimedEvent β)) (src : List (TimedEvent α)) :
    List (TimedEvent β) :=
  smAux proj none src

/-- The source marble of the debounce scenario of `testDebounceTime` in
`src/examples/16-memory-management.ts` and the time-based snippet in
`src/docs/17-testing-rxjs.md`. -/
def c1srcMarble : List Char := "a-b-c-d-e-f|".toList

/-- The expectation marble written in `testDebounceTime`. -/
def c1expMarble : List Char := "------(f|)".toList

/-- The expectation marble the spec's debounceTime semantics actually
produce for the scenario: the flushed value and the completion at frame
110, the source's completion frame. -/
def c1actualMarble : List Char := "-----------(f|)".toList

/-- The values map of the debounce scenario. -/
def c1vals : Char → Nat := fun c =>
  if c = 'a' then 1
  else if c = 'b' then 2
  else if c = 'c' then 3
  else if c = 'd' then 4
  else if c = 'e' then 5
  else if c = 'f' then 6
  else 0

/-- The always-erroring source marble of the retry scenarios in
`src/docs/17-testing-rxjs.md` (§8 of the spec). -/
def c4srcMarble : List Char := "-#".toList

/-- The source marble of the switchMap cancellation scenario (§8 of the
spec, `src/examples/09-higher-order-observables.ts`). -/
def c8srcMarble : List Char := "a-b|".toList

/-- The inner marble of the switchMap cancellation scenario; the character
`x` stands for the projected source value. -/
def c8innerMarble : List Char := "--x|".toList

/-- Modelled from the spec: an operation performed on a Subject (§3, §4.3) —
`push v` is `next(v)`, `stop` is `complete()`, and `sub i` registers observer
`i`. The Subject classes are not in the repository's source. -/
inductive SubjOp (α : Type) where
  | push : α → SubjOp α
  | stop : SubjOp α
  | sub : Nat → SubjOp α
deriving DecidableEq, Repr

/-- A list of subscribe operations, one per observer id. -/
def subsOps (l : List Nat) : List (SubjOp α) :=
  l.map SubjOp.sub

/-- The events delivered to observer `i`, in delivery order. -/
def eventsFor (i : Nat) (l : List (Nat × MEvent α)) : List (MEvent α) :=
  l.filterMap (fun p => if p.1 = i then some p.2 else none)

/-- Modelled from the spec: the state of an AsyncSubject (§3) — the last
value pushed so far, whether it has completed, and the registered observer
ids in registration order. -/
structure AsyncState (α : Type) where
  lastV : Option α
  done : Bool
  obs : List Nat
deriving Repr

/-- The events an AsyncSubject delivers to one observer at completion time
(or at subscription after completion): the last value, if any, then the
completion. -/
def asyncFlushOne (v? : Option α) (i : Nat) : List (Nat × MEvent α) :=
  match v? with
  | some v => [(i, MEvent.next v), (i, MEvent.complete)]
  | none => [(i, MEvent.complete)]

/-- Modelled from the spec: one AsyncSubject operation (§3 `AsyncSubject`,
terminal-state invariant). `next` before completion only updates the stored
last value and delivers nothing; `complete` delivers the last value then the
completion to every registered observer in order and enters the terminal
state (later `next` calls are no-ops); a subscriber arriving after completion
receives the replayed last value and the completion immediately. -/
def asyncStep (s : AsyncState α) : SubjOp α → AsyncState α × List (Nat × MEvent α)
  | SubjOp.push v => if s.done then (s, []) else ({ s with lastV := some v }, [])
  | SubjOp.stop =>
    if s.done then (s, [])
    else ({ s with done := true }, (s.obs.map (asyncFlushOne s.lastV)).flatten)
  | SubjOp.sub i =>
    if s.done then (s, asyncFlushOne s.lastV i)
    else ({ s with obs := s.obs ++ [i] }, [])

/-- Run a list of operations on an AsyncSubject, collecting all deliveries. -/
def asyncRun (s : AsyncState α) : List (SubjOp α) → List (Nat × MEvent α)
  | [] => []
  | op :: rest => (asyncStep s op).2 ++ asyncRun (asyncStep s op).1 rest

/-- The state of a fresh AsyncSubject. -/
def asyncInit : AsyncState α := ⟨none, false, []⟩

/-- The AsyncSubject state after a list of operations. -/
def asyncApply (s : AsyncState α) (ops : List (SubjOp α)) : AsyncState α :=
  ops.foldl (fun s op => (asyncStep s op).1) s

/-- Modelled from the spec: the state of a BehaviorSubject (§3) — the current
value (seeded at construction), the terminal flag, and the registered
observer ids. -/
structure BehState (α : Type) where
  cur : α
  done : Bool
  obs : List Nat
deriving Repr

/-- Modelled from the spec: one BehaviorSubject operation (§3
`BehaviorSubject`, §4.3). `next` updates the current value and delivers it to
every registered observer in order; every new subscriber immediately receives
the current value at subscribe time; after completion new subscribers receive
only the terminal event. -/
def behStep (s : BehState α) : SubjOp α → BehState α × List (Nat × MEvent α)
  | SubjOp.push v =>
    if s.done then (s, [])
    else ({ s with cur := v }, s.obs.map (fun i => (i, MEvent.next v)))
  | SubjOp.stop =>
    if s.done then (s, [])
    else ({ s with done := true }, s.obs.map (fun i => (i, MEvent.complete)))
  | SubjOp.sub i =>
    if s.done then (s, [(i, MEvent.complete)])
    else ({ s with obs := s.obs ++ [i] }, [(i, MEvent.next s.cur)])

/-- Run a list of operations on a BehaviorSubject, collecting all
deliveries. -/
def behRun (s : BehState α) : List (SubjOp α) → List (Nat × MEvent α)
  | [] => []
  | op :: rest => (behStep s op).2 ++ behRun (behStep s op).1 rest

/-- The BehaviorSubject state after a list of operations. -/
def behApply (s : BehState α) (ops : List (SubjOp α)) : BehState α :=
  ops.foldl (fun s op => (behStep s op).1) s

/-- Modelled from the spec: one call arriving at the wrapper observer that
`subscribe` installs (§4.1): after a terminal event the execution is closed
and every further call is swallowed; a value is forwarded while open; a
terminal event is forwarded and closes the execution. Returns the new closed
flag and the forwarded event, if any. The wrapper is not in the repository's
source. -/
def safeStep (closed : Bool) (e : MEvent α) : Bool × Option (MEvent α) :=
  if closed then (true, none)
  else
    match e with
    | MEvent.next v => (false, some (MEvent.next v))
    | MEvent.error => (true, some MEvent.error)
    | MEvent.complete => (true, some MEvent.complete)

/-- Feed the producer's raw calls through the wrapper observer, collecting
the events actually delivered to the downstream observer. -/
def safeRun (closed : Bool) : List (MEvent α) → List (MEvent α)
  | [] => []
  | e :: rest =>
    let r := safeStep closed e
    match r.2 with
    | some e2 => e2 :: safeRun r.1 rest
    | none => safeRun r.1 rest

/-- Is the delivered sequence free of events after a terminal event? -/
def noAfterTerminal : List (MEvent α) → Bool
  | [] => true
  | e :: rest => if notTerminal e then noAfterTerminal rest else rest.isEmpty

mutual

/-- Modelled from the spec: a Subscription (§3) — a closed flag, the
registered teardown actions (identified by numbers) in the order added, and
the child subscriptions added by composition (`add`), as in
`combinedSubscription` of `src/examples/01-core-concepts.ts`. Mutual with the
list of children. The Subscription class is not in the repository's
source. -/
inductive Subscr : Type where
  | node : Bool → List Nat → SubscrList → Subscr

/-- A list of child subscriptions. -/
inductive SubscrList : Type where
  | snil : SubscrList
  | scons : Subscr → SubscrList → SubscrList

end

mutual

/-- Modelled from the spec: `unsubscribe()` (§3, §5 Cancellation) — if the
subscription is already closed it does nothing; otherwise it closes the node,
runs its teardown actions in the order added, and recursively unsubscribes
every child. Returns the new state and the trace of teardown actions run. -/
def unsub : Subscr → Subscr × List Nat
  | Subscr.node true tds cs => (Subscr.node true tds cs, [])
  | Subscr.node false tds cs =>
    let r := unsubL cs
    (Subscr.node true tds r.1, tds ++ r.2)

/-- `unsub` mapped over a child list, concatenating the traces in order. -/
def unsubL : SubscrList → SubscrList × List Nat
  | SubscrList.snil => (SubscrList.snil, [])
  | SubscrList.scons c rest =>
    let rc := unsub c
    let rr := unsubL rest
    (SubscrList.scons rc.1 rr.1, rc.2 ++ rr.2)

end

mutual

/-- Every node of the subscription tree is closed. -/
def allClosed : Subscr → Bool
  | Subscr.node c _ cs => c && allClosedL cs

/-- Every node of every tree in the list is closed. -/
def allClosedL : SubscrList → Bool
  | SubscrList.snil => true
  | SubscrList.scons s rest => allClosed s && allClosedL rest

end

mutual

/-- Every node of the subscription tree is still open. -/
def allOpen : Subscr → Bool
  | Subscr.node c _ cs => !c && allOpenL cs

/-- Every node of every tree in the list is still open. -/
def allOpenL : SubscrList → Bool
  | SubscrList.snil => true
  | SubscrList.scons s rest => allOpen s && allOpenL rest

end

mutual

/-- All teardown actions registered in the tree, own actions first, then the
children's in the order the children were added. -/
def actionsOf : Subscr → List Nat
  | Subscr.node _ tds cs => tds ++ actionsOfL cs

/-- All teardown actions registered in a child list. -/
def actionsOfL : SubscrList → List Nat
  | SubscrList.snil => []
  | SubscrList.scons s rest => actionsOf s ++ actionsOfL rest

end

mutual

/-- Well-formedness of a subscription tree, from the spec's invariant that
once a subscription is closed any child it holds has been torn down: a
closed node has all-closed children, an open node has well-formed
children. -/
def wfS : Subscr → Bool
  | Subscr.node true _ cs => allClosedL cs
  | Subscr.node false _ cs => wfL cs

/-- Well-formedness of a child list. -/
def wfL : SubscrList → Bool
  | SubscrList.snil => true
  | SubscrList.scons s rest => wfS s && wfL rest

end

/-- Membership of a subscription in a child list. -/
inductive InL : Subscr → SubscrList → Prop where
  | head : ∀ s rest, InL s (SubscrList.scons s rest)
  | tail : ∀ s c rest, InL s rest → InL s (SubscrList.scons c rest)

/-- A concrete subscription for the idempotence witness: an open parent with
teardown actions 1 and 2 and one open child with teardown action 3, as built
by `combinedSubscription.add` in `src/examples/01-core-concepts.ts`. -/
def c5tree : Subscr :=
  Subscr.node false [1, 2]
    (SubscrList.scons (Subscr.node false [3] SubscrList.snil) SubscrList.snil)

/-- The witness child after the parent has been torn down. -/
def c5child : Subscr := Subscr.node true [3] SubscrList.snil

/-- The child list of a subscription. -/
def childrenOf : Subscr → SubscrList
  | Subscr.node _ _ cs => cs

/-- Embedded from `conditionalComposition` in
`src/examples/20-operator-composition-patterns.ts` (lines 101-121): starting
from `source`, when `enableLogging` holds re-bind the result to its
tap-piped form; when `enableRetry` holds the code performs the double
assignment `result$ = result$ = result$.pipe(retry(3))` — the inner
assignment stores the retry-piped observable and yields it as the value the
outer assignment stores again. The operators are abstracted as the functions
`tapOp` and `retryOp` on event sequences. -/
def conditionalCompositionTs (tapOp retryOp : List (TimedEvent α) → List (TimedEvent α))
    (enableLogging enableRetry : Bool) (source : List (TimedEvent α)) :
    List (TimedEvent α) :=
  let r0 := source
  let r1 := if enableLogging then tapOp r0 else r0
  let r2 :=
    if enableRetry then
      let inner := retryOp r1
      let outer := inner
      outer
    else r1
  r2

/-- Embedded from the docs variant of `conditionalComposition` in
`src/docs/20-operator-composition-patterns.md` (lines 48-64), which uses the
single assignment `result$ = result$.pipe(retry(3))`. -/
def conditionalCompositionDocs (tapOp retryOp : List (TimedEvent α) → List (TimedEvent α))
    (enableLogging enableRetry : Bool) (source : List (TimedEvent α)) :
    List (TimedEvent α) :=
  let r0 := source
  let r1 := if enableLogging then tapOp r0 else r0
  let r2 := if enableRetry then retryOp r1 else r1
  r2

/-! Helper lemmas. -/

theorem mapEv_comp (f : α → β) (g : β → γ) (e : MEvent α) :
    mapEv g (mapEv f e) = mapEv (fun x => g (f x)) e := by
  cases e <;> rfl

theorem safeRun_of_closed : ∀ calls : List (MEvent α), safeRun true calls = []
  | [] => rfl
  | _ :: rest => by
    simpa [safeRun, safeStep] using safeRun_of_closed rest

theorem retryRun_spec (src : List (TimedEvent α)) (te : Nat)
    (h : firstTerminal src = some ⟨te, MEvent.error⟩) :
    ∀ n t0 : Nat, (retryRun src n t0).1 = n + 1 ∧
      (retryRun src n t0).2.getLast? = some ⟨t0 + (n + 1) * te, MEvent.error⟩ := by
  intro n
  induction n with
  | zero =>
    intro t0
    refine ⟨?_, ?_⟩ <;> simp [retryRun, h, List.getLast?_concat]
  | succ k ih =>
    intro t0
    simp only [retryRun, h]
    refine ⟨by simpa using (ih (t0 + te)).1, ?_⟩
    have h2 := (ih (t0 + te)).2
    have hne : (retryRun src k (t0 + te)).2 ≠ [] := by
      intro hnil
      rw [hnil] at h2
      simp at h2
    rw [List.getLast?_append_of_ne_nil _ hne, h2]
    congr 2
    ring

theorem eventsFor_append (i : Nat) (a b : List (Nat × MEvent α)) :
    eventsFor i (a ++ b) = eventsFor i a ++ eventsFor i b := by
  simp [eventsFor]

theorem asyncRun_append (l1 l2 : List (SubjOp α)) : ∀ s : AsyncState α,
    asyncRun s (l1 ++ l2) = asyncRun s l1 ++ asyncRun (asyncApply s l1) l2 := by
  induction l1 with
  | nil => intro s; simp [asyncRun, asyncApply]
  | cons op rest ih =>
    intro s
    simp [asyncRun, asyncApply, ih, List.append_assoc]

theorem asyncSubs_open : ∀ (l : List Nat) (s : AsyncState α), s.done = false →
    asyncRun s (subsOps l) = [] ∧ asyncApply s (subsOps l) = { s with obs := s.obs ++ l }
  | [], s, _ => by simp [subsOps, asyncRun, asyncApply]
  | j :: rest, s, h => by
    have ih := asyncSubs_open rest { s with obs := s.obs ++ [j] } (by simpa using h)
    refine ⟨?_, ?_⟩
    · simpa [subsOps, asyncRun, asyncStep, h] using ih.1
    · have h2 := ih.2
      simp [subsOps, asyncApply, asyncStep, h] at h2 ⊢
      simpa [List.append_assoc] using h2

theorem asyncSubs_done : ∀ (l : List Nat) (s : AsyncState α), s.done = true →
    asyncRun s (subsOps l) = (l.map (asyncFlushOne s.lastV)).flatten ∧
      asyncApply s (subsOps l) = s
  | [], s, _ => by simp [subsOps, asyncRun, asyncApply]
  | j :: rest, s, h => by
    have ih := asyncSubs_done rest s h
    have hstep : asyncStep s (SubjOp.sub j) = (s, asyncFlushOne s.lastV j) := by
      simp [asyncStep, h]
    have hmap : subsOps (j :: rest) = SubjOp.sub j :: subsOps (α := α) rest := rfl
    refine ⟨?_, ?_⟩
    · rw [hmap, asyncRun, hstep, ih.1, List.map_cons, List.flatten_cons]
    · rw [hmap, asyncApply, List.foldl_cons, hstep]
      exact ih.2

theorem asyncSeg (l : List Nat) (v : α) (rest : List (SubjOp α)) :
    ∀ s : AsyncState α, s.done = false →
    asyncRun s (subsOps l ++ (SubjOp.push v :: rest))
      = asyncRun { s with lastV := some v, obs := s.obs ++ l } rest := by
  intro s h
  rw [asyncRun_append]
  have ho := asyncSubs_open l s h
  rw [ho.1, ho.2]
  simp [asyncRun, asyncStep, h]

theorem eventsFor_flush (i : Nat) (v : α) : ∀ S : List Nat,
    eventsFor i ((S.map (asyncFlushOne (some v))).flatten)
      = (List.replicate (S.count i) [MEvent.next v, MEvent.complete]).flatten
  | [] => by simp [eventsFor]
  | j :: rest => by
    have ih := eventsFor_flush i v rest
    rw [List.map_cons, List.flatten_cons, eventsFor_append, ih]
    by_cases hj : j = i
    · subst hj
      rw [List.count_cons_self, List.replicate_succ, List.flatten_cons]
      congr 1
      simp [eventsFor, asyncFlushOne]
    · rw [List.count_cons_of_ne (Ne.symm hj)]
      have : eventsFor i (asyncFlushOne (some v) j) = [] := by
        simp [eventsFor, asyncFlushOne, hj]
      rw [this, List.nil_append]

theorem behRun_append (l1 l2 : List (SubjOp α)) : ∀ s : BehState α,
    behRun s (l1 ++ l2) = behRun s l1 ++ behRun (behApply s l1) l2 := by
  induction l1 with
  | nil => intro s; simp [behRun, behApply]
  | cons op rest ih =>
    intro s
    simp [behRun, behApply, ih, List.append_assoc]

theorem behSubs_open : ∀ (l : List Nat) (s : BehState α), s.done = false →
    behRun s (subsOps l) = l.map (fun j => (j, MEvent.next s.cur)) ∧
      behApply s (subsOps l) = { s with obs := s.obs ++ l }
  | [], s, _ => by simp [subsOps, behRun, behApply]
  | j :: rest, s, h => by
    have ih := behSubs_open rest { s with obs := s.obs ++ [j] } (by simpa using h)
    refine ⟨?_, ?_⟩
    · simpa [subsOps, behRun, behStep, h] using ih.1
    · have h2 := ih.2
      simp [subsOps, behApply, behStep, h] at h2 ⊢
      simpa [List.append_assoc] using h2

theorem eventsFor_map_not_mem (i : Nat) (g : Nat → MEvent α) :
    ∀ l : List Nat, i ∉ l → eventsFor i (l.map (fun j => (j, g j))) = []
  | [], _ => by simp [eventsFor]
  | j :: rest, h => by
    have hj : j ≠ i := fun e => h (e ▸ List.mem_cons_self j rest)
    have ih := eventsFor_map_not_mem i g rest (fun m => h (List.mem_cons_of_mem j m))
    simp [eventsFor, hj] at ih ⊢
    exact ih

theorem behSeg (l : List Nat) (v : α) (rest : List (SubjOp α)) :
    ∀ s : BehState α, s.done = false →
    behRun s (subsOps l ++ (SubjOp.push v :: rest))
      = l.map (fun j => (j, MEvent.next s.cur))
        ++ (s.obs ++ l).map (fun j => (j, MEvent.next v))
        ++ behRun { s with cur := v, obs := s.obs ++ l } rest := by
  intro s h
  rw [behRun_append]
  have ho := behSubs_open l s h
  rw [ho.1, ho.2]
  simp [behRun, behStep, h, List.append_assoc]

theorem unsub_of_closed (s : Subscr) (h : allClosed s = true) : unsub s = (s, []) := by
  cases s with
  | node c tds cs =>
    cases c
    · simp [allClosed] at h
    · simp [unsub]

mutual

theorem unsub_wf_allClosed : ∀ s : Subscr, wfS s = true → allClosed (unsub s).1 = true
  | Subscr.node c tds cs, h => by
    cases c
    · have hl : wfL cs = true := by simpa [wfS] using h
      simp [unsub, allClosed, unsubL_wf_allClosed cs hl]
    · have hl : allClosedL cs = true := by simpa [wfS] using h
      simp [unsub, allClosed, hl]

theorem unsubL_wf_allClosed : ∀ l : SubscrList, wfL l = true → allClosedL (unsubL l).1 = true
  | SubscrList.snil, _ => by simp [unsubL, allClosedL]
  | SubscrList.scons s rest, h => by
    have hs : wfS s = true := by
      have h2 := h
      simp [wfL] at h2
      exact h2.1
    have hr : wfL rest = true := by
      have h2 := h
      simp [wfL] at h2
      exact h2.2
    simp [unsubL, allClosedL, unsub_wf_allClosed s hs, unsubL_wf_allClosed rest hr]

end

mutual

theorem unsub_trace_actions : ∀ s : Subscr, allOpen s = true → (unsub s).2 = actionsOf s
  | Subscr.node c tds cs, h => by
    cases c
    · have hl : allOpenL cs = true := by simpa [allOpen] using h
      simp [unsub, actionsOf, unsubL_trace_actions cs hl]
    · simp [allOpen] at h

theorem unsubL_trace_actions : ∀ l : SubscrList, allOpenL l = true → (unsubL l).2 = actionsOfL l
  | SubscrList.snil, _ => by simp [unsubL, actionsOfL]
  | SubscrList.scons s rest, h => by
    have hs : allOpen s = true := by
      have h2 := h
      simp [allOpenL] at h2
      exact h2.1
    have hr : allOpenL rest = true := by
      have h2 := h
      simp [allOpenL] at h2
      exact h2.2
    simp [unsubL, actionsOfL, unsub_trace_actions s hs, unsubL_trace_actions rest hr]

end

theorem allClosed_of_InL {c : Subscr} {l : SubscrList} (hin : InL c l)
    (h : allClosedL l = true) : allClosed c = true := by
  induction hin with
  | head rest =>
    simp [allClosedL] at h
    exact h.1
  | tail c2 rest _ ih =>
    simp [allClosedL] at h
    exact ih h.2

/-! Claim theorems. -/

/-- C1 (counterexample). In the `testDebounceTime` scenario of
`src/examples/16-memory-management.ts`, the spec's debounceTime semantics do
NOT produce the event sequence parsed from the expectation marble
`------(f|)` (which places the value 6 and the completion at frame 60). -/
theorem debounceTime_marble_counterexample :
    debounceTimeSem 20 (parseMarbles c1srcMarble c1vals) ≠ parseMarbles c1expMarble c1vals := by
  decide

/-- C1 (amended). For the cold source `a-b-c-d-e-f|`, piping through
`debounceTime(20)` under the spec's semantics produces the value of `f` and
the completion together at frame 110 — the source's completion frame, where
the pending value is flushed — i.e. the sequence of the marble
`-----------(f|)`, not of the code's `------(f|)`. -/
theorem debounceTime_marble_amended :
    ∀ (α : Type) (vals : Char → α),
      debounceTimeSem 20 (parseMarbles c1srcMarble vals) = parseMarbles c1actualMarble vals := by
  intro α vals
  rfl

/-- C2. For an AsyncSubject that received `next(v1)`, `next(v2)`, `next(v3)`
and then `complete()`, every observer that subscribed exactly once — at any
point before, between or after those calls (the interleavings `s0..s4`) —
receives exactly one `next` with the last value `v3` followed by `complete`;
and before `complete()` is called nothing at all is delivered to anyone. -/
theorem asyncSubject_delivers_last_value (α : Type) (v1 v2 v3 : α)
    (s0 s1 s2 s3 s4 : List Nat) (i : Nat)
    (h : (s0 ++ s1 ++ s2 ++ s3 ++ s4).count i = 1) :
    eventsFor i (asyncRun (asyncInit (α := α))
        (subsOps s0 ++ [SubjOp.push v1] ++ subsOps s1 ++ [SubjOp.push v2] ++ subsOps s2
          ++ [SubjOp.push v3] ++ subsOps s3 ++ [SubjOp.stop] ++ subsOps s4))
      = [MEvent.next v3, MEvent.complete]
    ∧ asyncRun (asyncInit (α := α))
        (subsOps s0 ++ [SubjOp.push v1] ++ subsOps s1 ++ [SubjOp.push v2] ++ subsOps s2
          ++ [SubjOp.push v3] ++ subsOps s3) = [] := by
  refine ⟨?_, ?_⟩
  · simp only [List.append_assoc, List.singleton_append, List.cons_append, List.nil_append]
    rw [asyncSeg, asyncSeg, asyncSeg]
    · show eventsFor i (asyncRun (⟨some v3, false, s0 ++ s1 ++ s2⟩ : AsyncState α)
        (subsOps s3 ++ (SubjOp.stop :: subsOps s4))) = _
      rw [asyncRun_append]
      have ho := asyncSubs_open s3 (⟨some v3, false, s0 ++ s1 ++ s2⟩ : AsyncState α) rfl
      rw [ho.1, ho.2, List.nil_append]
      show eventsFor i (asyncRun (⟨some v3, false, s0 ++ s1 ++ s2 ++ s3⟩ : AsyncState α)
        (SubjOp.stop :: subsOps s4)) = _
      have hstop : asyncStep (⟨some v3, false, s0 ++ s1 ++ s2 ++ s3⟩ : AsyncState α) SubjOp.stop
          = (⟨some v3, true, s0 ++ s1 ++ s2 ++ s3⟩,
             ((s0 ++ s1 ++ s2 ++ s3).map (asyncFlushOne (some v3))).flatten) := by
        simp [asyncStep]
      rw [asyncRun, hstop]
      have hd := asyncSubs_done s4 (⟨some v3, true, s0 ++ s1 ++ s2 ++ s3⟩ : AsyncState α) rfl
      rw [hd.1]
      show eventsFor i (((s0 ++ s1 ++ s2 ++ s3).map (asyncFlushOne (some v3))).flatten
        ++ (s4.map (asyncFlushOne (some v3))).flatten) = _
      rw [eventsFor_append, eventsFor_flush, eventsFor_flush]
      have hc : (s0 ++ s1 ++ s2 ++ s3).count i + s4.count i = 1 := by
        have h2 := h
        simp only [List.count_append] at h2 ⊢
        omega
      have hsplit : ((s0 ++ s1 ++ s2 ++ s3).count i = 1 ∧ s4.count i = 0)
          ∨ ((s0 ++ s1 ++ s2 ++ s3).count i = 0 ∧ s4.count i = 1) := by omega
      rcases hsplit with ⟨ha, hb⟩ | ⟨ha, hb⟩ <;> rw [ha, hb] <;> simp
    · rfl
    · rfl
    · rfl
  · simp only [List.append_assoc, List.singleton_append, List.cons_append, List.nil_append]
    rw [asyncSeg, asyncSeg, asyncSeg]
    · exact (asyncSubs_open s3 _ rfl).1
    · rfl
    · rfl
    · rfl

/-- C2 (witness). A concrete instance: observer 6 subscribes between the
third `next` and `complete`, alongside observers 5 (before all values) and 7
(after completion); observer 6 receives exactly `[next 3, complete]`, and
the run before `complete` delivers nothing. -/
theorem asyncSubject_delivers_last_value_witness :
    eventsFor 6 (asyncRun (asyncInit (α := Nat))
        (subsOps [5] ++ [SubjOp.push 1] ++ subsOps [] ++ [SubjOp.push 2] ++ subsOps []
          ++ [SubjOp.push 3] ++ subsOps [6] ++ [SubjOp.stop] ++ subsOps [7]))
      = [MEvent.next 3, MEvent.complete]
    ∧ asyncRun (asyncInit (α := Nat))
        (subsOps [5] ++ [SubjOp.push 1] ++ subsOps [] ++ [SubjOp.push 2] ++ subsOps []
          ++ [SubjOp.push 3] ++ subsOps [6]) = [] :=
  asyncSubject_delivers_last_value Nat 1 2 3 [5] [] [] [6] [7] 6 (by decide)

/-- C3. For every producer call sequence, the wrapper observer installed by
`subscribe` delivers no further `next`/`error`/`complete` once a terminal
event has been delivered: the delivered sequence `safeRun false calls` has
nothing after its first terminal event, however the producer keeps calling. -/
theorem wrapper_terminal_event_exclusive :
    ∀ (α : Type) (calls : List (MEvent α)), noAfterTerminal (safeRun false calls) = true := by
  intro α calls
  induction calls with
  | nil => rfl
  | cons e rest ih =>
    cases e with
    | next v => simpa [safeRun, safeStep, noAfterTerminal, notTerminal] using ih
    | error => simp [safeRun, safeStep, noAfterTerminal, notTerminal, safeRun_of_closed]
    | complete => simp [safeRun, safeStep, noAfterTerminal, notTerminal, safeRun_of_closed]

/-- C4. For every `n` and every cold source whose first terminal event is an
error (a source that errors on each subscription), `retry(n)` makes exactly
`n + 1` subscriptions (1 original + n retries) and then propagates the last
error, at frame `(n+1) * te` for an error at relative frame `te`. -/
theorem retry_resubscribes_n_times (α : Type) (src : List (TimedEvent α)) (te n : Nat)
    (h : firstTerminal src = some ⟨te, MEvent.error⟩) :
    (retrySem n src).1 = n + 1 ∧
      (retrySem n src).2.getLast? = some ⟨(n + 1) * te, MEvent.error⟩ := by
  have := retryRun_spec src te h n 0
  simpa [retrySem] using this

/-- C4 (witness). The cold source `-#` errors at relative frame 10 on each
subscription; `retry(2)` makes exactly 3 subscriptions and propagates the
error at frame 30. -/
theorem retry_resubscribes_n_times_witness :
    (retrySem 2 (parseMarbles c4srcMarble (fun _ => (0 : Nat)))).1 = 3 ∧
      (retrySem 2 (parseMarbles c4srcMarble (fun _ => (0 : Nat)))).2.getLast?
        = some ⟨30, MEvent.error⟩ := by
  have := retry_resubscribes_n_times Nat (parseMarbles c4srcMarble (fun _ => (0 : Nat))) 10 2 (by rfl)
  exact ⟨this.1, by simpa using this.2⟩

/-- C6. `map` fuses under composition — `O.pipe(map(f)).pipe(map(g))` emits
the same sequence (same values, same order, same terminal) as
`O.pipe(map(x => g(f(x))))` — and `pipe` composes operators left to right:
`pipe(f, g)(x) = g(f(x))`. -/
theorem map_fusion_and_pipe_compose :
    (∀ (α β γ : Type) (f : α → β) (g : β → γ) (evs : List (TimedEvent α)),
      mapSem g (mapSem f evs) = mapSem (fun x => g (f x)) evs)
    ∧ (∀ (σ : Type) (F G : σ → σ) (x : σ), pipeL [F, G] x = G (F x)) := by
  constructor
  · intro α β γ f g evs
    simp only [mapSem, List.map_map]
    exact List.map_congr_left (fun e _ => by simp [Function.comp, mapEv_comp])
  · intro σ F G x
    rfl

/-- C7. For the cold source `a-b-#`, piping through `catchError` with a
handler returning `of(y)` yields exactly the sequence of the marble
`a-b-(y|)`: the source's values pass through unchanged, the error never
reaches the output, and the handler's emission and completion are spliced in
at the error's frame. -/
theorem catchError_splices_handler :
    ∀ (α : Type) (vals : Char → α),
      catchErrorSem (ofSem (vals 'y')) (parseMarbles c7srcMarble vals)
        = parseMarbles c7expMarble vals := by
  intro α vals
  rfl

/-- C9. For a BehaviorSubject seeded with `z`, after `next(a)` and `next(b)`
have been called — with any other observers `s0`, `s1`, `s2` registered along
the way — an observer `i` that registers afterward receives `b` as its first
value, delivered at subscribe time, and never receives `z` or `a`: its
delivered sequence is exactly `[next b]`. -/
theorem behaviorSubject_late_subscriber (α : Type) (z a b : α)
    (s0 s1 s2 : List Nat) (i : Nat) (h : i ∉ s0 ++ s1 ++ s2) :
    eventsFor i (behRun (⟨z, false, []⟩ : BehState α)
        (subsOps s0 ++ [SubjOp.push a] ++ subsOps s1 ++ [SubjOp.push b] ++ subsOps s2
          ++ [SubjOp.sub i]))
      = [MEvent.next b] := by
  simp only [List.mem_append, not_or] at h
  have h01 : i ∉ s0 ++ s1 := by
    simp only [List.mem_append, not_or]
    exact ⟨h.1.1, h.1.2⟩
  simp only [List.append_assoc, List.singleton_append, List.cons_append, List.nil_append]
  rw [behSeg, behSeg]
  · show eventsFor i
      (s0.map (fun j => (j, MEvent.next z))
        ++ (s0.map (fun j => (j, MEvent.next a)))
        ++ ((s1.map (fun j => (j, MEvent.next a))
          ++ ((s0 ++ s1).map (fun j => (j, MEvent.next b)))
          ++ behRun (⟨b, false, s0 ++ s1⟩ : BehState α)
              (subsOps s2 ++ [SubjOp.sub i])))) = _
    rw [behRun_append]
    have ho := behSubs_open s2 (⟨b, false, s0 ++ s1⟩ : BehState α) rfl
    rw [ho.1, ho.2]
    show eventsFor i
      (s0.map (fun j => (j, MEvent.next z))
        ++ (s0.map (fun j => (j, MEvent.next a)))
        ++ ((s1.map (fun j => (j, MEvent.next a))
          ++ ((s0 ++ s1).map (fun j => (j, MEvent.next b)))
          ++ (s2.map (fun j => (j, MEvent.next b))
            ++ behRun (⟨b, false, s0 ++ s1 ++ s2⟩ : BehState α) [SubjOp.sub i])))) = _
    have p0 := eventsFor_map_not_mem i (fun _ => MEvent.next z) s0 h.1.1
    have p1 := eventsFor_map_not_mem i (fun _ => MEvent.next a) s0 h.1.1
    have p2 := eventsFor_map_not_mem i (fun _ => MEvent.next a) s1 h.1.2
    have p3 := eventsFor_map_not_mem i (fun _ => MEvent.next b) (s0 ++ s1) h01
    have p4 := eventsFor_map_not_mem i (fun _ => MEvent.next b) s2 h.2
    simp only [eventsFor_append, p0, p1, p2, p3, p4, List.nil_append, List.append_nil]
    simp [behRun, behStep, eventsFor]
  · rfl
  · rfl

/-- C9 (witness). A concrete instance: the BehaviorSubject is seeded with 0,
observers 3 and 4 register along the way, `next 1` and `next 2` are pushed,
then observer 9 registers and receives exactly `[next 2]`. -/
theorem behaviorSubject_late_subscriber_witness :
    eventsFor 9 (behRun (⟨0, false, []⟩ : BehState Nat)
        (subsOps [3] ++ [SubjOp.push 1] ++ subsOps [] ++ [SubjOp.push 2] ++ subsOps [4]
          ++ [SubjOp.sub 9]))
      = [MEvent.next 2] :=
  behaviorSubject_late_subscriber Nat 0 1 2 [3] [] [4] 9 (by decide)

/-- C5. For every well-formed Subscription: a second `unsubscribe()` has no
additional effect (it returns the already-closed state and runs no teardown
action); on a fully open subscription the first `unsubscribe()` runs exactly
the registered teardown actions, in the order added, each once; after
`unsubscribe()` every node is closed; and every child of the torn-down
subscription — torn down indirectly through its composed parent — yields no
further action when unsubscribed itself. -/
theorem subscription_unsubscribe_idempotent (s : Subscr) (hw : wfS s = true) :
    unsub (unsub s).1 = ((unsub s).1, [])
    ∧ (allOpen s = true → (unsub s).2 = actionsOf s)
    ∧ allClosed (unsub s).1 = true
    ∧ (∀ c : Subscr, InL c (childrenOf (unsub s).1) → unsub c = (c, [])) := by
  have hac := unsub_wf_allClosed s hw
  refine ⟨unsub_of_closed _ hac, fun ho => unsub_trace_actions s ho, hac, ?_⟩
  intro c hin
  have hl : allClosedL (childrenOf (unsub s).1) = true := by
    cases h1 : (unsub s).1 with
    | node cc tds cs =>
      rw [h1] at hac
      simp [allClosed] at hac
      simpa [childrenOf] using hac.2
  exact unsub_of_closed c (allClosed_of_InL hin hl)

/-- C5 (witness). The concrete parent `c5tree` (open, teardown actions 1 and
2, one open child with action 3) is well formed; its teardown runs [1, 2, 3]
(the order added, each once), a second `unsubscribe` does nothing, every node
ends closed, and the indirectly torn-down child `c5child` yields no further
action. -/
theorem subscription_unsubscribe_idempotent_witness :
    wfS c5tree = true
    ∧ unsub (unsub c5tree).1 = ((unsub c5tree).1, [])
    ∧ (unsub c5tree).2 = actionsOf c5tree
    ∧ allClosed (unsub c5tree).1 = true
    ∧ unsub c5child = (c5child, []) := by
  have hwf : wfS c5tree = true := by simp [c5tree, wfS, wfL]
  have ht := subscription_unsubscribe_idempotent c5tree hwf
  refine ⟨hwf, ht.1, ht.2.1 (by simp [c5tree, allOpen, allOpenL]), ht.2.2.1, ?_⟩
  have hch : childrenOf (unsub c5tree).1 = SubscrList.scons c5child SubscrList.snil := by
    simp [c5tree, c5child, unsub, unsubL, childrenOf]
  refine ht.2.2.2 c5child ?_
  rw [hch]
  exact InL.head _ _

/-- C8. For the cold source `a-b|` and the projection of each value to the
cold inner `--x|` (the inner emitting the projected source value), switchMap
unsubscribes the inner spawned for `a` when `b` arrives before it emits: the
output is exactly `b`'s inner value at frame 40 and completion at frame 50
(when both source and current inner have completed), and no output event ever
carries the value `a`. -/
theorem switchMap_cancels_previous_inner :
    (∀ (α : Type) (vals : Char → α),
      switchMapSem (fun v => parseMarbles c8innerMarble (fun _ => v))
          (parseMarbles c8srcMarble vals)
        = [⟨40, MEvent.next (vals 'b')⟩, ⟨50, MEvent.complete⟩])
    ∧ ((switchMapSem (fun v => parseMarbles c8innerMarble (fun _ => v))
          (parseMarbles c8srcMarble (fun c => c))).all
        (fun e => decide (e.ev ≠ MEvent.next 'a')) = true) := by
  constructor
  · intro α vals
    rfl
  · decide

/-- C10. The `conditionalComposition` of
`src/examples/20-operator-composition-patterns.ts`, whose retry branch
performs the double assignment `result$ = result$ = result$.pipe(retry(3))`,
returns the same Observable as the single-assignment docs variant of
`src/docs/20-operator-composition-patterns.md` for every source and every
pair of flags; with both flags false it returns the source itself. -/
theorem conditionalComposition_ts_docs_equiv :
    ∀ (α : Type) (tapOp retryOp : List (TimedEvent α) → List (TimedEvent α))
      (eL eR : Bool) (src : List (TimedEvent α)),
      conditionalCompositionTs tapOp retryOp eL eR src
        = conditionalCompositionDocs tapOp retryOp eL eR src
      ∧ conditionalCompositionTs tapOp retryOp false false src = src := by
  intro α tapOp retryOp eL eR src
  exact ⟨rfl, rfl⟩

end Rx
